import Mathlib

/-!
Verification of the `deet` debugger (proj-1) against its specification.

The Rust sources embedded here are `src/proj-1/deet/src/inferior.rs` and
`src/proj-1/deet/src/debugger.rs`.  OS interactions (ptrace, waitpid,
process spawning) are modelled by explicit oracle parameters: each embedded
function takes the outcomes the kernel would have produced as arguments and
computes exactly what the Rust code does with them.  Word-level memory of a
traced process is a total map from addresses to machine words together with
a validity map telling which addresses ptrace can access.
-/

namespace Deet

/-- Size of a machine word in bytes (`size_of::<usize>()` on x86-64). -/
def WORD_SIZE : Nat := 8

/-- `2 ^ 64`, the modulus of `u64` / `usize` arithmetic. -/
def U64_MOD : Nat := 2 ^ 64

/-- Embedding of `align_addr_to_word` (inferior.rs line 10):
`addr & (-(size_of::<usize>() as isize) as usize)`.  The two's-complement
image of `-8` as a `usize` is `2 ^ 64 - 8`. -/
def align_addr_to_word (addr : Nat) : Nat :=
  addr &&& (U64_MOD - 8)

/-- Errors returned by `nix` calls (`nix::Error`); the particular code is
irrelevant to the embedded logic, a few representatives suffice. -/
inductive NixError
  | ESRCH
  | EIO
  | EFAULT
deriving DecidableEq, Repr

/-- Word-addressed memory of a traced process: `words a` is the 64-bit word
that `ptrace::read` at address `a` returns, and `valid a` tells whether
ptrace can access address `a` (otherwise reads and writes fail). -/
structure PMem where
  words : Nat → Nat
  valid : Nat → Bool

/-- Model of `ptrace::read(pid, addr)`. -/
def ptraceRead (m : PMem) (addr : Nat) : Except NixError Nat :=
  if m.valid addr then Except.ok (m.words addr) else Except.error NixError.EFAULT

/-- Model of `ptrace::write(pid, addr, word)`. -/
def ptraceWrite (m : PMem) (addr word : Nat) : Except NixError PMem :=
  if m.valid addr then
    Except.ok { m with words := fun a => if a = addr then word else m.words a }
  else Except.error NixError.EFAULT

/-- Embedding of `Inferior::write_byte` (inferior.rs lines 198-211): round the
address down to its containing word, read that word, extract the original
byte, splice in `val` by mask-and-shift, write the word back, and return the
original byte. -/
def write_byte (m : PMem) (addr val : Nat) : Except NixError (Nat × PMem) := do
  let aligned_addr := align_addr_to_word addr
  let byte_offset := addr - aligned_addr
  let word ← ptraceRead m aligned_addr
  let orig_byte := (word >>> (8 * byte_offset)) &&& 0xff
  let masked_word := word &&& ((U64_MOD - 1) ^^^ (0xff <<< (8 * byte_offset)))
  let updated_word := masked_word ||| (val <<< (8 * byte_offset))
  let m' ← ptraceWrite m aligned_addr updated_word
  return (orig_byte, m')

/-- Embedding of `Inferior::install_break_points` (inferior.rs lines 213-215):
write the trap opcode `0xcc` at `addr`. -/
def install_break_points (m : PMem) (addr : Nat) : Except NixError (Nat × PMem) :=
  write_byte m addr 0xcc

/-- The byte stored at address `addr`: the byte of the containing aligned
word at offset `addr - aligned`. -/
def byteAt (m : PMem) (addr : Nat) : Nat :=
  (m.words (align_addr_to_word addr) >>> (8 * (addr - align_addr_to_word addr))) &&& 0xff

/-- The word produced by the mask-and-splice in `write_byte`. -/
def patchWord (word val off : Nat) : Nat :=
  (word &&& ((U64_MOD - 1) ^^^ (0xff <<< (8 * off)))) ||| (val <<< (8 * off))

/-- The byte of `word` at byte offset `off`. -/
def byteOf (word off : Nat) : Nat :=
  (word >>> (8 * off)) &&& 0xff

/-- A concrete all-accessible memory used in witnesses. -/
def demoMem : PMem :=
  { words := fun _ => 0x1122334455667788, valid := fun _ => true }

/-- Unix signals relevant to the debugger. -/
inductive Signal
  | SIGTRAP
  | SIGSEGV
  | SIGINT
  | SIGKILL
deriving DecidableEq, Repr

/-- Embedding of the `Status` enum (inferior.rs lines 14-25). -/
inductive Status
  | Stopped (signal : Signal) (rip : Nat)
  | Exited (exit_code : Int)
  | Signaled (signal : Signal)
deriving DecidableEq, Repr

/-- The `nix::sys::wait::WaitStatus` variants that `Inferior::wait` decodes
(inferior.rs lines 109-116; the remaining variants fall into the panicking
arm and are outside the embedded state space). -/
inductive WaitStatus
  | stopped (pid : Nat) (signal : Signal)
  | exited (pid : Nat) (exit_code : Int)
  | signaled (pid : Nat) (signal : Signal) (core_dumped : Bool)
deriving DecidableEq, Repr

/-- Primitive ptrace/wait operations performed against the traced process,
recorded as a trace so that theorems can speak about which kernel requests a
code path issues. -/
inductive Action
  | ptraceCont
  | ptraceStep
  | waitpidCall
  | getRegs
  | memWrite (addr : Nat) (word : Nat)
  | memRead (addr : Nat)
deriving DecidableEq, Repr

/-- Embedding of `Inferior::wait` (inferior.rs lines 108-118): decode the
outcome of `waitpid`; on a stop, additionally read the registers for the
instruction pointer.  `waitResult` is the outcome the kernel produces for the
`waitpid` call and `regsRip` the outcome of `ptrace::getregs`. -/
def inferiorWait (waitResult : Except NixError WaitStatus)
    (regsRip : Except NixError Nat) :
    List Action × Except NixError Status :=
  match waitResult with
  | Except.error e => ([Action.waitpidCall], Except.error e)
  | Except.ok ws =>
    match ws with
    | WaitStatus.exited _ code => ([Action.waitpidCall], Except.ok (Status.Exited code))
    | WaitStatus.signaled _ s _ => ([Action.waitpidCall], Except.ok (Status.Signaled s))
    | WaitStatus.stopped _ s =>
      match regsRip with
      | Except.error e => ([Action.waitpidCall, Action.getRegs], Except.error e)
      | Except.ok rip =>
          ([Action.waitpidCall, Action.getRegs], Except.ok (Status.Stopped s rip))

/-- Embedding of `Inferior::cont` (inferior.rs lines 127-132): issue
`ptrace::cont`, then delegate to `Inferior::wait`.  `contCall` is the outcome
of the `ptrace::cont` request. -/
def inferiorCont (contCall : Except NixError Unit)
    (waitResult : Except NixError WaitStatus) (regsRip : Except NixError Nat) :
    List Action × Except NixError Status :=
  match contCall with
  | Except.error e => ([Action.ptraceCont], Except.error e)
  | Except.ok _ =>
    let w := inferiorWait waitResult regsRip
    (Action.ptraceCont :: w.1, w.2)

/-- The state owned by an `Inferior`: the child's pid and its traced memory. -/
structure Inferior where
  pid : Nat
  mem : PMem

/-- The breakpoint-installation loop of `Inferior::new` (inferior.rs lines
85-87): `res.install_break_points(*bp);` discards the `Result`, so a failing
install leaves memory unchanged and the loop goes on. -/
def installAllDiscardingErrors (m : PMem) (breakpoints : List Nat) : PMem :=
  breakpoints.foldl
    (fun acc bp =>
      match install_break_points acc bp with
      | Except.ok (_, acc') => acc'
      | Except.error _ => acc)
    m

/-- Embedding of `Inferior::new` (inferior.rs lines 57-99): spawn the child
(`spawnResult` is `none` when `cmd.spawn()` fails), wait for it; only a stop
with SIGTRAP yields an inferior, in which case every requested breakpoint is
installed with the install results discarded.  `initialMem` is the child's
memory right after the initial stop. -/
def inferiorNew (spawnResult : Option Nat)
    (waitResult : Except NixError WaitStatus)
    (breakpoints : List Nat) (initialMem : PMem) : Option Inferior :=
  match spawnResult with
  | none => none
  | some pid =>
    match waitResult with
    | Except.ok (WaitStatus.stopped _ s) =>
      if s = Signal.SIGTRAP then
        some { pid := pid, mem := installAllDiscardingErrors initialMem breakpoints }
      else none
    | Except.ok _ => none
    | Except.error _ => none

/-- Console output of the debugger, one constructor per `println!` site of
`debugger.rs` that the embedded arms can reach. -/
inductive Out
  | killingInferior (pid : Nat)
  | failedToKill
  | errorStartingSubprocess
  | framePrinted (func : String) (file : String) (line : Nat)
  | noInferiorToContinue
  | noInferiorToStep
  | setBreakpoint (index : Nat) (addr : Nat)
  | failedToInstallBreakpoint
  | terminalStatus (st : Status)
deriving DecidableEq, Repr

/-- State of the `Debugger` struct (debugger.rs lines 8-15) that the embedded
arms read and write: the inferior slot and the pending-breakpoint table. -/
structure Debugger where
  inferior : Option Inferior
  breakpoints : List Nat

/-- Result of executing one command arm: either normal continuation with the
printed output and the successor state, or a `panic` (an `expect` fired),
which aborts the debugger process with a non-zero exit status. -/
inductive StepResult
  | ok (out : List Out) (s : Debugger)
  | panicked (msg : String)

/-- Source line information returned by the DWARF collaborator. -/
structure Line where
  file : String
  number : Nat
deriving DecidableEq, Repr

/-- Interface of the `DwarfData` collaborator (a component outside the embedded
sources; only its query results matter). -/
structure DwarfData where
  get_line_from_addr : Nat → Option Line
  get_function_from_addr : Nat → Option String
  get_addr_for_line : Option String → Nat → Option Nat
  get_addr_for_function : Option String → String → Option Nat

/-- Embedding of `Inferior::print_current_frame` (inferior.rs lines 184-196):
print `func (file:line)` when both the line and the function resolve, and
report `true` (stop the walk) exactly when the resolved function is
`"main"`. -/
def print_current_frame (dd : DwarfData) (instruction_ptr : Nat) :
    List Out × Bool :=
  match dd.get_line_from_addr instruction_ptr,
        dd.get_function_from_addr instruction_ptr with
  | some line, some func =>
      ([Out.framePrinted func line.file line.number], func = "main")
  | _, _ => ([], false)

/-- Embedding of the `Continue` arm of `Debugger::run` (debugger.rs lines
82-89): with an inferior, call `Inferior::cont` and `expect` its result —
the `Ok` status is discarded; with no inferior, print the error message.
The first component is the trace of kernel requests issued. -/
def continueArm (s : Debugger) (contCall : Except NixError Unit)
    (waitResult : Except NixError WaitStatus) (regsRip : Except NixError Nat) :
    List Action × StepResult :=
  match s.inferior with
  | some _ =>
    let c := inferiorCont contCall waitResult regsRip
    match c.2 with
    | Except.ok _ => (c.1, StepResult.ok [] s)
    | Except.error _ => (c.1, StepResult.panicked "Error continuing inferior")
  | none => ([], StepResult.ok [Out.noInferiorToContinue] s)

/-- Embedding of the `BackTrace` arm of `Debugger::run` (debugger.rs lines
100-106): with an inferior, run `print_backtrace` and `expect` its result;
with no inferior, the `if let` has no `else` — nothing is printed. -/
def backtraceArm (s : Debugger) (btResult : Except NixError (List Out)) :
    StepResult :=
  match s.inferior with
  | some _ =>
    match btResult with
    | Except.ok frames => StepResult.ok frames s
    | Except.error _ => StepResult.panicked "Error printing backtrace"
  | none => StepResult.ok [] s

/-- Embedding of the `BreakPoint` arm of `Debugger::run` (debugger.rs lines
135-144), from the point where the target spec has been resolved:
`bp_addr_opt` is the value of the raw-address / line / function resolution of
lines 109-133.  The index printed is the CURRENT length of the table; the
address is pushed onto the table only when no inferior exists, otherwise the
trap is installed into the live inferior and the table is left unchanged. -/
def breakpointArm (s : Debugger) (bp_addr_opt : Option Nat) :
    List Out × Debugger :=
  match bp_addr_opt with
  | none => ([], s)
  | some addr =>
    let msg := Out.setBreakpoint s.breakpoints.length addr
    match s.inferior with
    | some inf =>
      match install_break_points inf.mem addr with
      | Except.ok (_, m') =>
          ([msg], { s with inferior := some { inf with mem := m' } })
      | Except.error _ => ([msg, Out.failedToInstallBreakpoint], s)
    | none => ([msg], { s with breakpoints := s.breakpoints ++ [addr] })

/-- Embedding of the `Run` arm of `Debugger::run` (debugger.rs lines 54-81):
kill any existing inferior (logged, slot untouched), spawn a new one with the
pending breakpoints; on success store it in the slot, resume it with
`Inferior::cont` and `expect` the result; print the current frame only when
the resume ends in `Stopped`.  On `Exited`/`Signaled` nothing further
happens — in particular the slot keeps the new inferior.  `killResult` is
the outcome of `Child::kill` for an existing inferior. -/
def runArm (s : Debugger) (dd : DwarfData)
    (killResult : Except Unit Unit)
    (spawnResult : Option Nat) (initialWait : Except NixError WaitStatus)
    (initialMem : PMem)
    (contCall : Except NixError Unit)
    (contWait : Except NixError WaitStatus) (contRip : Except NixError Nat) :
    StepResult :=
  let killOut : List Out :=
    match s.inferior with
    | some inf =>
      Out.killingInferior inf.pid ::
        (match killResult with
         | Except.ok _ => []
         | Except.error _ => [Out.failedToKill])
    | none => []
  match inferiorNew spawnResult initialWait s.breakpoints initialMem with
  | some inf =>
    let s1 : Debugger := { s with inferior := some inf }
    let c := inferiorCont contCall contWait contRip
    match c.2 with
    | Except.error _ => StepResult.panicked "Error continuing inferior"
    | Except.ok status =>
      match status with
      | Status.Stopped _ ptr =>
          StepResult.ok (killOut ++ (print_current_frame dd ptr).1) s1
      | _ => StepResult.ok killOut s1
  | none => StepResult.ok (killOut ++ [Out.errorStartingSubprocess]) s

/-- Embedding of the loop of `Inferior::print_backtrace` (inferior.rs lines
174-180): print the current frame; stop if it was the `main` frame;
otherwise read the next instruction pointer from the word at
`base_ptr + 8`, the next base pointer from the word at `base_ptr`, and
repeat.  The Rust loop is unbounded, so the embedding is indexed by fuel;
`none` means the fuel ran out with the walk still going. -/
def backtraceLoop (dd : DwarfData) (m : PMem) :
    Nat → Nat → Nat → Option (Except NixError (List Out))
  | 0, _, _ => none
  | fuel + 1, instruction_ptr, base_ptr =>
    if (print_current_frame dd instruction_ptr).2 then
      some (Except.ok (print_current_frame dd instruction_ptr).1)
    else
      match ptraceRead m (base_ptr + 8) with
      | Except.error e => some (Except.error e)
      | Except.ok ip2 =>
        match ptraceRead m base_ptr with
        | Except.error e => some (Except.error e)
        | Except.ok bp2 =>
          match backtraceLoop dd m fuel ip2 bp2 with
          | some (Except.ok frames) =>
              some (Except.ok ((print_current_frame dd instruction_ptr).1 ++ frames))
          | r => r

/-- Embedding of `Inferior::print_backtrace` (inferior.rs lines 171-182):
start the walk from the current instruction pointer and base pointer read
from the registers. -/
def print_backtrace (dd : DwarfData) (m : PMem) (rip rbp fuel : Nat) :
    Option (Except NixError (List Out)) :=
  backtraceLoop dd m fuel rip rbp

/-- The stop condition of the Next loop, as the spec states it: the process
reports an error or a non-step outcome (exit, kill-by-signal, stop on a
signal other than the step trap), or the resolved source line differs from
the line at entry. -/
def nextStops (dd : DwarfData) (entryLine : Option Line) :
    Except NixError Status → Bool
  | Except.error _ => true
  | Except.ok (Status.Exited _) => true
  | Except.ok (Status.Signaled _) => true
  | Except.ok (Status.Stopped sig ip) =>
      decide (sig ≠ Signal.SIGTRAP) || decide (dd.get_line_from_addr ip ≠ entryLine)

/-- Modelled from the spec: `Inferior::next_line` is invoked by the Next arm
of `Debugger::run` (debugger.rs line 149) but its definition is missing from
the sources.  Spec §4.1 Next: "Repeatedly single-steps the Traced Process,
resolving the instruction pointer to a source line after each step, until
the resolved line differs from the line at entry or the process stops for a
non-step reason (breakpoint hit, exit, signal)."  `entryLine` is the source
line resolved at entry and `steps` lists the successive outcomes of the
single-step waits; `none` means the supplied outcomes ran out with the loop
still stepping.  A breakpoint trap hit while stepping arrives as the same
trap signal as the step itself and is subsumed by the line comparison. -/
def next_line (dd : DwarfData) (entryLine : Option Line) :
    List (Except NixError Status) → Option (Except NixError Status)
  | [] => none
  | r :: rest =>
    match r with
    | Except.error e => some (Except.error e)
    | Except.ok st =>
      match st with
      | Status.Exited _ => some (Except.ok st)
      | Status.Signaled _ => some (Except.ok st)
      | Status.Stopped sig ip =>
        if sig ≠ Signal.SIGTRAP then some (Except.ok st)
        else if dd.get_line_from_addr ip ≠ entryLine then some (Except.ok st)
        else next_line dd entryLine rest

/-- The `Next` arm of `Debugger::run` (debugger.rs lines 146-157) combined
with the spec-modelled `next_line`: with no inferior print the error
message; otherwise run `next_line` and `expect` its result; print the
resolved frame when the final status is a stop.  Modelled from the spec:
reporting the terminal status otherwise ("Reports the new frame on stop, or
the terminal status otherwise", spec §4.1) is attributed to the missing
`next_line`. -/
def nextArm (s : Debugger) (dd : DwarfData) (entryLine : Option Line)
    (steps : List (Except NixError Status)) : Option StepResult :=
  match s.inferior with
  | none => some (StepResult.ok [Out.noInferiorToStep] s)
  | some _ =>
    match next_line dd entryLine steps with
    | none => none
    | some (Except.error _) =>
        some (StepResult.panicked "Error executing next command")
    | some (Except.ok st) =>
      match st with
      | Status.Stopped _ ptr =>
          some (StepResult.ok (print_current_frame dd ptr).1 s)
      | _ => some (StepResult.ok [Out.terminalStatus st] s)

/-- A concrete inferior over `demoMem`, used in witnesses and
counterexamples. -/
def demoInferior : Inferior := { pid := 7, mem := demoMem }

/-- A concrete debugger state holding `demoInferior` and an empty breakpoint
table. -/
def demoState : Debugger := { inferior := some demoInferior, breakpoints := [] }

/-- A memory none of whose addresses is ptrace-accessible: every read and
write fails. -/
def badMem : PMem := { words := fun _ => 0, valid := fun _ => false }

/-- Symbol data for a three-level call chain `main -> f -> g`: the stop site
in `g` is address 500, the return site in `f` is 400 and the return site in
`main` is 300. -/
def chainDwarf : DwarfData :=
  { get_line_from_addr := fun a =>
      if a = 500 then some { file := "m.rs", number := 30 }
      else if a = 400 then some { file := "m.rs", number := 20 }
      else if a = 300 then some { file := "m.rs", number := 10 }
      else none
  , get_function_from_addr := fun a =>
      if a = 500 then some "g"
      else if a = 400 then some "f"
      else if a = 300 then some "main"
      else none
  , get_addr_for_line := fun _ _ => none
  , get_addr_for_function := fun _ _ => none }

/-- Like `chainDwarf` but with the middle frame (address 400) unresolved, to
exercise the skip-without-terminating behaviour. -/
def skipDwarf : DwarfData :=
  { get_line_from_addr := fun a =>
      if a = 500 then some { file := "m.rs", number := 30 }
      else if a = 300 then some { file := "m.rs", number := 10 }
      else none
  , get_function_from_addr := fun a =>
      if a = 500 then some "g"
      else if a = 300 then some "main"
      else none
  , get_addr_for_line := fun _ _ => none
  , get_addr_for_function := fun _ _ => none }

/-- Stack memory for the three-level chain: `g`'s frame has base pointer
1000 with the return address into `f` at 1008 and `f`'s base pointer 2000
stored at 1000; `f`'s frame has the return address into `main` at 2008 and
`main`'s base pointer 3000 stored at 2000. -/
def chainMem : PMem :=
  { words := fun a =>
      if a = 1008 then 400
      else if a = 1000 then 2000
      else if a = 2008 then 300
      else if a = 2000 then 3000
      else 0
  , valid := fun _ => true }

/-- A DwarfData with an entry line at address 100 and 101 and a different
line at address 200, used to exercise the Next loop. -/
def nextDwarf : DwarfData :=
  { get_line_from_addr := fun a =>
      if a = 100 ∨ a = 101 then some { file := "n.rs", number := 5 }
      else if a = 200 then some { file := "n.rs", number := 6 }
      else none
  , get_function_from_addr := fun a =>
      if a = 200 then some "h" else none
  , get_addr_for_line := fun _ _ => none
  , get_addr_for_function := fun _ _ => none }

/-- Step outcomes for the Next scenario: two step traps on the entry line,
then a step trap on a new line. -/
def nextSteps : List (Except NixError Status) :=
  [Except.ok (Status.Stopped Signal.SIGTRAP 101),
   Except.ok (Status.Stopped Signal.SIGTRAP 100),
   Except.ok (Status.Stopped Signal.SIGTRAP 200)]

theorem testBit_byte_mask (i : Nat) : (0xff : Nat).testBit i = decide (i < 8) := by
  have h : (0xff : Nat) = 2 ^ 8 - 1 := by norm_num
  rw [h, Nat.testBit_two_pow_sub_one]

theorem testBit_u64_max (i : Nat) : (U64_MOD - 1).testBit i = decide (i < 64) := by
  have h : U64_MOD - 1 = 2 ^ 64 - 1 := by norm_num [U64_MOD]
  rw [h, Nat.testBit_two_pow_sub_one]

theorem testBit_align_mask (i : Nat) :
    (U64_MOD - 8).testBit i = (decide (3 ≤ i) && decide (i < 64)) := by
  have h : U64_MOD - 8 = (2 ^ 61 - 1) <<< 3 := by
    rw [Nat.shiftLeft_eq]
    norm_num [U64_MOD]
  rw [h, Nat.testBit_shiftLeft, Nat.testBit_two_pow_sub_one]
  by_cases h3 : 3 ≤ i
  · by_cases h64 : i < 64
    · have : i - 3 < 61 := by omega
      simp [h3, h64, this]
    · have : ¬ (i - 3 < 61) := by omega
      simp [h3, h64, this]
  · simp [h3]

theorem testBit_of_ge_64 (x i : Nat) (hx : x < U64_MOD) (hi : 64 ≤ i) :
    x.testBit i = false := by
  apply Nat.testBit_lt_two_pow
  calc x < 2 ^ 64 := hx
    _ ≤ 2 ^ i := Nat.pow_le_pow_right (by norm_num) hi

/-- `align_addr_to_word` rounds down to the containing aligned word. -/
theorem align_addr_to_word_eq (addr : Nat) (h : addr < U64_MOD) :
    align_addr_to_word addr = 8 * (addr / 8) := by
  have hshift : 8 * (addr / 8) = (addr >>> 3) <<< 3 := by
    rw [Nat.shiftRight_eq_div_pow, Nat.shiftLeft_eq]
    norm_num
    ring
  rw [hshift]
  apply Nat.eq_of_testBit_eq
  intro i
  rw [align_addr_to_word, Nat.testBit_and, testBit_align_mask, Nat.testBit_shiftLeft,
    Nat.testBit_shiftRight]
  by_cases h3 : 3 ≤ i
  · by_cases h64 : i < 64
    · have : 3 + (i - 3) = i := by omega
      simp [h3, h64, this]
    · have hbit : addr.testBit i = false := testBit_of_ge_64 addr i h (by omega)
      have hbit2 : addr.testBit (3 + (i - 3)) = false := by
        have : 3 + (i - 3) = i := by omega
        rw [this, hbit]
      simp [h3, h64, hbit, hbit2]
  · simp [h3]

/-- The byte offset computed by `write_byte` is `addr % 8`. -/
theorem byte_offset_eq (addr : Nat) (h : addr < U64_MOD) :
    addr - align_addr_to_word addr = addr % 8 := by
  rw [align_addr_to_word_eq addr h]
  omega

theorem byte_offset_lt (addr : Nat) (h : addr < U64_MOD) :
    addr - align_addr_to_word addr < 8 := by
  rw [byte_offset_eq addr h]
  omega

theorem byteOf_lt (word off : Nat) : byteOf word off < 256 := by
  have h := Nat.and_le_right (n := word >>> (8 * off)) (m := 0xff)
  rw [byteOf]
  omega

theorem testBit_patchWord (word val off i : Nat) :
    (patchWord word val off).testBit i =
      ((word.testBit i && (xor (decide (i < 64)) (decide (8 * off ≤ i) && decide (i - 8 * off < 8))))
        || (decide (8 * off ≤ i) && val.testBit (i - 8 * off))) := by
  rw [patchWord, Nat.testBit_or, Nat.testBit_and, Nat.testBit_xor, testBit_u64_max,
    Nat.testBit_shiftLeft, Nat.testBit_shiftLeft, testBit_byte_mask]

theorem testBit_of_lt_256 (v k : Nat) (hv : v < 256) (hk : 8 ≤ k) :
    v.testBit k = false := by
  apply Nat.testBit_lt_two_pow
  calc v < 256 := hv
    _ = 2 ^ 8 := by norm_num
    _ ≤ 2 ^ k := Nat.pow_le_pow_right (by norm_num) hk

/-- Splicing `val` in at offset `off` makes the byte at `off` equal to `val`. -/
theorem byteOf_patchWord_same (word val off : Nat) (hval : val < 256)
    (hoff : off < 8) :
    byteOf (patchWord word val off) off = val := by
  apply Nat.eq_of_testBit_eq
  intro i
  rw [byteOf, Nat.testBit_and, Nat.testBit_shiftRight, testBit_byte_mask, testBit_patchWord]
  by_cases hi : i < 8
  · have h1 : (8 * off ≤ 8 * off + i) := by omega
    have h2 : 8 * off + i - 8 * off = i := by omega
    have h3 : 8 * off + i - 8 * off < 8 := by omega
    have h64 : 8 * off + i < 64 := by omega
    simp [h1, h2, h3, h64, hi]
  · have hv : val.testBit i = false := testBit_of_lt_256 val i hval (by omega)
    simp [hi, hv]

/-- Splicing a byte in at offset `off` leaves every other byte offset of the
word unchanged. -/
theorem byteOf_patchWord_other (word val off off' : Nat) (hoff : off < 8)
    (hoff' : off' < 8) (hne : off' ≠ off) (hval : val < 256) :
    byteOf (patchWord word val off) off' = byteOf word off' := by
  apply Nat.eq_of_testBit_eq
  intro i
  rw [byteOf, byteOf, Nat.testBit_and, Nat.testBit_and, Nat.testBit_shiftRight,
    Nat.testBit_shiftRight, testBit_patchWord, testBit_byte_mask]
  by_cases hi : i < 8
  · have hout : ¬ (8 * off ≤ 8 * off' + i ∧ 8 * off' + i - 8 * off < 8) := by omega
    have h64 : 8 * off' + i < 64 := by omega
    by_cases hle : 8 * off ≤ 8 * off' + i
    · have h8 : ¬ (8 * off' + i - 8 * off < 8) := by omega
      have hv : val.testBit (8 * off' + i - 8 * off) = false :=
        testBit_of_lt_256 val _ hval (by omega)
      simp [hle, h8, h64, hv]
    · have hd : decide (8 * off ≤ 8 * off' + i) = false := by
        simp [hle]
      simp [hd, h64]
  · simp [hi]

/-- Patching a byte and then splicing the saved original byte back restores
the word exactly. -/
theorem patchWord_restore (word val off : Nat) (hword : word < U64_MOD)
    (hoff : off < 8) (hval : val < 256) :
    patchWord (patchWord word val off) (byteOf word off) off = word := by
  apply Nat.eq_of_testBit_eq
  intro i
  rw [testBit_patchWord, testBit_patchWord]
  have hb : byteOf word off < 256 := byteOf_lt word off
  by_cases h64 : i < 64
  · by_cases hin : 8 * off ≤ i ∧ i - 8 * off < 8
    · have hbit : (byteOf word off).testBit (i - 8 * off) = word.testBit i := by
        rw [byteOf, Nat.testBit_and, Nat.testBit_shiftRight, testBit_byte_mask]
        have : 8 * off + (i - 8 * off) = i := by omega
        simp [this, hin.2]
      simp [hin.1, hin.2, h64, hbit]
    · by_cases hle : 8 * off ≤ i
      · have h8 : ¬ (i - 8 * off < 8) := by omega
        have hv1 : val.testBit (i - 8 * off) = false :=
          testBit_of_lt_256 val _ hval (by omega)
        have hv2 : (byteOf word off).testBit (i - 8 * off) = false :=
          testBit_of_lt_256 _ _ hb (by omega)
        simp [hle, h8, h64, hv1, hv2]
      · have hd : decide (8 * off ≤ i) = false := by
          simp [hle]
        simp [hd, h64]
  · have hw : word.testBit i = false := testBit_of_ge_64 word i hword (by omega)
    have hle : 8 * off ≤ i := by omega
    have h8 : ¬ (i - 8 * off < 8) := by omega
    have hbb : (byteOf word off).testBit (i - 8 * off) = false :=
      testBit_of_lt_256 _ _ hb (by omega)
    simp [hle, h8, h64, hw, hbb]

/-- When the containing word is ptrace-accessible, `write_byte` succeeds and
returns the original byte together with the memory whose containing word has
been patched. -/
theorem write_byte_ok (m : PMem) (addr val : Nat)
    (hv : m.valid (align_addr_to_word addr) = true) :
    write_byte m addr val = Except.ok
      (byteOf (m.words (align_addr_to_word addr)) (addr - align_addr_to_word addr),
       { m with words := fun a =>
           if a = align_addr_to_word addr
           then patchWord (m.words (align_addr_to_word addr)) val (addr - align_addr_to_word addr)
           else m.words a }) := by
  simp [write_byte, ptraceRead, ptraceWrite, hv, byteOf, patchWord, Bind.bind, Except.bind,
    Pure.pure, Except.pure]

/-- When the containing word is not ptrace-accessible, `write_byte` fails and
the memory is unchanged (the function returns only the error). -/
theorem write_byte_err (m : PMem) (addr val : Nat)
    (hv : m.valid (align_addr_to_word addr) = false) :
    write_byte m addr val = Except.error NixError.EFAULT := by
  simp [write_byte, ptraceRead, hv, Bind.bind, Except.bind]

theorem offset_ne_of_same_word (a x : Nat) (ha : a < U64_MOD) (hx : x < U64_MOD)
    (halign : align_addr_to_word x = align_addr_to_word a) (hne : x ≠ a) :
    x - align_addr_to_word x ≠ a - align_addr_to_word a := by
  rw [byte_offset_eq x hx, byte_offset_eq a ha]
  rw [align_addr_to_word_eq x hx, align_addr_to_word_eq a ha] at halign
  omega

/-- C6: patching the trap opcode `0xcc` at `a` via `install_break_points`
returns the byte `b` that was at `a` before patching, and writing `b` back at
`a` via `write_byte` restores the containing word — and hence the byte read
at `a` — to its exact value before patching. -/
theorem patch_restore_roundtrip (m : PMem) (a : Nat)
    (ha : a < U64_MOD) (hm : ∀ w, m.words w < U64_MOD)
    (hv : m.valid (align_addr_to_word a) = true) :
    ∃ b m1, install_break_points m a = Except.ok (b, m1) ∧
      b = byteAt m a ∧
      ∃ b2 m2, write_byte m1 a b = Except.ok (b2, m2) ∧
        (∀ x, m2.words x = m.words x) ∧
        byteAt m2 a = byteAt m a := by
  have hoff : a - align_addr_to_word a < 8 := byte_offset_lt a ha
  have hwlt : m.words (align_addr_to_word a) < U64_MOD := hm _
  have hkey : patchWord (patchWord (m.words (align_addr_to_word a)) 0xcc
        (a - align_addr_to_word a))
        (byteOf (m.words (align_addr_to_word a)) (a - align_addr_to_word a))
        (a - align_addr_to_word a)
      = m.words (align_addr_to_word a) :=
    patchWord_restore _ 0xcc _ hwlt hoff (by norm_num)
  refine ⟨_, _, write_byte_ok m a 0xcc hv, rfl, ?_⟩
  refine ⟨_, _, write_byte_ok _ a _ hv, ?_, ?_⟩
  · intro x
    by_cases hx : x = align_addr_to_word a
    · subst hx
      simp [hkey]
    · simp [hx]
  · show (_ : Nat) &&& 0xff = _
    simp only [if_true, eq_self_iff_true, if_pos]
    rw [hkey]
    rfl

/-- Witness for C6: the round-trip law evaluated at address 5 of a concrete
memory. -/
theorem patch_restore_roundtrip_witness :
    ∃ b m1, install_break_points demoMem 5 = Except.ok (b, m1) ∧
      b = byteAt demoMem 5 ∧
      ∃ b2 m2, write_byte m1 5 b = Except.ok (b2, m2) ∧
        (∀ x, m2.words x = demoMem.words x) ∧
        byteAt m2 5 = byteAt demoMem 5 :=
  patch_restore_roundtrip demoMem 5 (by norm_num [U64_MOD])
    (fun w => by norm_num [demoMem, U64_MOD]) rfl

/-- The byte at `x` after updating the word stored at address `w`. -/
theorem byteAt_update (m : PMem) (w word x : Nat) :
    byteAt { m with words := fun y => if y = w then word else m.words y } x
      = if align_addr_to_word x = w
        then (word >>> (8 * (x - align_addr_to_word x))) &&& 0xff
        else byteAt m x := by
  rw [byteAt, byteAt]
  by_cases h : align_addr_to_word x = w
  · simp [h]
  · simp [h]

/-- C7: `write_byte` rounds the address down to the start of the containing
naturally aligned word, injects the new byte by shift masking at offset
`a % 8` within that word (the byte read back at `a` is `v`), and leaves the
byte at every other address unchanged. -/
theorem write_byte_frame (m : PMem) (a v : Nat)
    (ha : a < U64_MOD) (hvv : v < 256)
    (hv : m.valid (align_addr_to_word a) = true) :
    align_addr_to_word a = 8 * (a / 8) ∧
    a - align_addr_to_word a = a % 8 ∧
    ∃ b m', write_byte m a v = Except.ok (b, m') ∧
      byteAt m' a = v ∧
      ∀ x, x < U64_MOD → x ≠ a → byteAt m' x = byteAt m x := by
  refine ⟨align_addr_to_word_eq a ha, byte_offset_eq a ha,
    _, _, write_byte_ok m a v hv, ?_, ?_⟩
  · rw [byteAt_update]
    simp only [if_pos rfl]
    exact byteOf_patchWord_same _ v _ hvv (byte_offset_lt a ha)
  · intro x hx hne
    rw [byteAt_update]
    by_cases halign : align_addr_to_word x = align_addr_to_word a
    · have hbx : byteAt m x = byteOf (m.words (align_addr_to_word a)) (x - align_addr_to_word a) := by
        rw [byteAt, halign]
        rfl
      have hoffx : x - align_addr_to_word a < 8 := by
        have h := byte_offset_lt x hx
        rwa [halign] at h
      have hnex : x - align_addr_to_word a ≠ a - align_addr_to_word a := by
        have h := offset_ne_of_same_word a x ha hx halign hne
        rwa [halign] at h
      rw [if_pos halign, halign, hbx]
      exact byteOf_patchWord_other _ v _ _ (byte_offset_lt a ha) hoffx hnex hvv
    · rw [if_neg halign]

/-- Witness for C7: evaluated at the unaligned address 13 with byte `0xcc`. -/
theorem write_byte_frame_witness :
    align_addr_to_word 13 = 8 * (13 / 8) ∧
    13 - align_addr_to_word 13 = 13 % 8 ∧
    ∃ b m', write_byte demoMem 13 0xcc = Except.ok (b, m') ∧
      byteAt m' 13 = 0xcc ∧
      ∀ x, x < U64_MOD → x ≠ 13 → byteAt m' x = byteAt demoMem x :=
  write_byte_frame demoMem 13 0xcc (by norm_num [U64_MOD]) (by norm_num) rfl

/-- C1: contrary to the claim, the `Continue` arm performs no restore of the
original instruction byte, no single-step, and no re-install before
resuming: for every kernel outcome its request trace contains no memory
write, no single-step and no memory read at all, and when an inferior is
present and all calls succeed the trace is exactly PTRACE_CONT followed by
the wait decoding.  Resuming from an installed trap byte therefore executes
the trap byte again instead of the original instruction. -/
theorem continue_resumes_without_restore_step_reinstall (s : Debugger)
    (c : Except NixError Unit) (w : Except NixError WaitStatus)
    (r : Except NixError Nat) :
    (∀ a v, Action.memWrite a v ∉ (continueArm s c w r).1) ∧
    Action.ptraceStep ∉ (continueArm s c w r).1 ∧
    (∀ a, Action.memRead a ∉ (continueArm s c w r).1) ∧
    (continueArm demoState (Except.ok ())
        (Except.ok (WaitStatus.stopped 7 Signal.SIGTRAP)) (Except.ok 0)).1
      = [Action.ptraceCont, Action.waitpidCall, Action.getRegs] := by
  obtain ⟨o, bps⟩ := s
  refine ⟨?_, ?_, ?_, rfl⟩ <;>
    cases o <;> cases c <;> rcases w with e | ws <;> (try cases ws) <;> cases r <;>
    simp [continueArm, inferiorCont, inferiorWait]

/-- C2 counterexample: with a traced process active, a first breakpoint
command reports index 0 but appends nothing to the table, and a second
breakpoint command again reports index 0 — the index is the table length,
not the number of previously created breakpoints, and no entry is appended
while a process exists. -/
theorem breakpoint_index_reused_cex :
    (breakpointArm demoState (some 0x1000)).1 = [Out.setBreakpoint 0 0x1000] ∧
    (breakpointArm demoState (some 0x1000)).2.breakpoints = [] ∧
    (breakpointArm (breakpointArm demoState (some 0x1000)).2 (some 0x2000)).1
      = [Out.setBreakpoint 0 0x2000] ∧
    (breakpointArm (breakpointArm demoState (some 0x1000)).2 (some 0x2000)).2.breakpoints
      = [] := by
  refine ⟨?_, ?_, ?_, ?_⟩ <;> decide

/-- C2 amended: a breakpoint command whose target resolves reports as index
the current length of the pending table; the entry is appended to the table
only when no traced process exists — when one exists the trap byte is
installed into it and the table is left unchanged, so reported indices can
repeat. -/
theorem breakpoint_arm_append_and_index (bps : List Nat) (addr : Nat) :
    (∀ inf,
      (breakpointArm { inferior := some inf, breakpoints := bps } (some addr)).1.head?
          = some (Out.setBreakpoint bps.length addr) ∧
      (breakpointArm { inferior := some inf, breakpoints := bps } (some addr)).2.breakpoints
          = bps) ∧
    (breakpointArm { inferior := none, breakpoints := bps } (some addr)).1
        = [Out.setBreakpoint bps.length addr] ∧
    (breakpointArm { inferior := none, breakpoints := bps } (some addr)).2.breakpoints
        = bps ++ [addr] := by
  refine ⟨fun inf => ?_, rfl, rfl⟩
  rcases hres : install_break_points inf.mem addr with e | ⟨b, m'⟩
  · simp [breakpointArm, hres]
  · simp [breakpointArm, hres]

/-- A frame is printed with stop signal `true` exactly when both the line and
the function resolve and the function is `"main"`. -/
theorem print_current_frame_main (dd : DwarfData) (ip : Nat)
    (h : (print_current_frame dd ip).2 = true) :
    ∃ file ln, (print_current_frame dd ip).1 = [Out.framePrinted "main" file ln] := by
  cases hl : dd.get_line_from_addr ip with
  | none =>
    rw [print_current_frame, hl] at h
    cases hf : dd.get_function_from_addr ip <;> rw [hf] at h <;> simp at h
  | some line =>
    cases hf : dd.get_function_from_addr ip with
    | none =>
      rw [print_current_frame, hl, hf] at h
      simp at h
    | some func =>
      rw [print_current_frame, hl, hf] at h
      have hm : func = "main" := by
        simpa using h
      refine ⟨line.file, line.number, ?_⟩
      rw [print_current_frame, hl, hf, hm]

/-- C3 counterexample: a wait failure from the kernel during `Continue` — an
error arising after startup — makes the `expect` fire, which aborts the
debugger process with a non-zero status, contrary to the claim that only
metadata-load failure at startup terminates it. -/
theorem continue_wait_error_panics :
    (continueArm demoState (Except.ok ()) (Except.error NixError.EIO)
        (Except.ok 0)).2
      = StepResult.panicked "Error continuing inferior" := rfl

/-- C3 amended: spawn failure, an unresolved breakpoint target and
operations issued with no active process are reported and the loop
continues; but a kernel wait or memory error surfacing from the resume of
`Run`, from `Continue`, from `Backtrace` or from `Next` fires an `expect`
and terminates the debugger process. -/
theorem post_startup_error_handling (bps : List Nat) (dd : DwarfData)
    (inf : Inferior) (e : NixError) (mem : PMem) (pid : Nat)
    (r : Except NixError Nat) (el : Option Line)
    (steps : List (Except NixError Status)) :
    (∀ cc cw cr,
      runArm { inferior := none, breakpoints := bps } dd (Except.ok ()) none
          (Except.ok (WaitStatus.stopped pid Signal.SIGTRAP)) mem cc cw cr
        = StepResult.ok [Out.errorStartingSubprocess]
            { inferior := none, breakpoints := bps }) ∧
    (∀ s, breakpointArm s none = ([], s)) ∧
    ((continueArm { inferior := none, breakpoints := bps } (Except.ok ())
        (Except.error e) r).2
      = StepResult.ok [Out.noInferiorToContinue]
          { inferior := none, breakpoints := bps }) ∧
    ((continueArm { inferior := some inf, breakpoints := bps } (Except.ok ())
        (Except.error e) r).2
      = StepResult.panicked "Error continuing inferior") ∧
    (backtraceArm { inferior := some inf, breakpoints := bps }
        (Except.error e)
      = StepResult.panicked "Error printing backtrace") ∧
    (runArm { inferior := none, breakpoints := bps } dd (Except.ok ())
        (some pid) (Except.ok (WaitStatus.stopped pid Signal.SIGTRAP)) mem
        (Except.ok ()) (Except.error e) r
      = StepResult.panicked "Error continuing inferior") ∧
    (nextArm { inferior := some inf, breakpoints := bps } dd el
        (Except.error e :: steps)
      = some (StepResult.panicked "Error executing next command")) := by
  refine ⟨fun cc cw cr => rfl, fun s => ?_, rfl, rfl, rfl, rfl, rfl⟩
  rfl

/-- C8 counterexample: a `Run` whose resume ends with `Exited 0` leaves the
traced-process slot holding the just-spawned (now dead) inferior instead of
clearing it. -/
theorem run_exited_slot_retained :
    runArm { inferior := none, breakpoints := [] } chainDwarf (Except.ok ())
        (some 7) (Except.ok (WaitStatus.stopped 7 Signal.SIGTRAP)) demoMem
        (Except.ok ()) (Except.ok (WaitStatus.exited 7 0)) (Except.ok 0)
      = StepResult.ok []
          { inferior := some { pid := 7, mem := demoMem }, breakpoints := [] } ∧
    (Debugger.mk (some { pid := 7, mem := demoMem }) []).inferior ≠ none := by
  exact ⟨rfl, fun h => Option.noConfusion h⟩

/-- C8 amended: when the resume performed by `Run` ends with `Exited` or
`Signaled`, the slot still holds the just-spawned inferior — it is never
cleared; the slot only changes when a later `Run` overwrites it with a new
inferior (and on spawn failure it keeps even the old, killed one). -/
theorem run_arm_slot_on_terminal (bps : List Nat) (dd : DwarfData)
    (pid pid2 : Nat) (mem : PMem) (code : Int) (sig : Signal)
    (r : Except NixError Nat) (inf : Inferior) (k : Except Unit Unit) :
    (runArm { inferior := none, breakpoints := bps } dd (Except.ok ())
        (some pid) (Except.ok (WaitStatus.stopped pid Signal.SIGTRAP)) mem
        (Except.ok ()) (Except.ok (WaitStatus.exited pid2 code)) r
      = StepResult.ok []
          { inferior :=
              some { pid := pid, mem := installAllDiscardingErrors mem bps }
          , breakpoints := bps }) ∧
    (runArm { inferior := none, breakpoints := bps } dd (Except.ok ())
        (some pid) (Except.ok (WaitStatus.stopped pid Signal.SIGTRAP)) mem
        (Except.ok ()) (Except.ok (WaitStatus.signaled pid2 sig false)) r
      = StepResult.ok []
          { inferior :=
              some { pid := pid, mem := installAllDiscardingErrors mem bps }
          , breakpoints := bps }) ∧
    (runArm { inferior := some inf, breakpoints := bps } dd k none
        (Except.ok (WaitStatus.stopped pid Signal.SIGTRAP)) mem
        (Except.ok ()) (Except.ok (WaitStatus.exited pid2 code)) r
      = StepResult.ok
          (Out.killingInferior inf.pid ::
            ((match k with
              | Except.ok _ => []
              | Except.error _ => [Out.failedToKill]) ++
              [Out.errorStartingSubprocess]))
          { inferior := some inf, breakpoints := bps }) := by
  refine ⟨rfl, rfl, ?_⟩
  cases k <;> rfl

/-- C9 counterexample: `Backtrace` issued with no traced process prints
nothing at all — no no-active-process error is reported (the `if let` in the
BackTrace arm has no `else` branch). -/
theorem backtrace_silent_when_no_process :
    backtraceArm { inferior := none, breakpoints := [] } (Except.ok [])
      = StepResult.ok [] { inferior := none, breakpoints := [] } := rfl

/-- C9 amended: with no traced process, `Continue` and `Next` report a
no-active-process message and `Backtrace` silently does nothing; none of the
three changes the session state. -/
theorem no_active_process_reports (bps : List Nat)
    (c : Except NixError Unit) (w : Except NixError WaitStatus)
    (r : Except NixError Nat) (dd : DwarfData) (el : Option Line)
    (steps : List (Except NixError Status))
    (bt : Except NixError (List Out)) :
    continueArm { inferior := none, breakpoints := bps } c w r
      = ([], StepResult.ok [Out.noInferiorToContinue]
          { inferior := none, breakpoints := bps }) ∧
    nextArm { inferior := none, breakpoints := bps } dd el steps
      = some (StepResult.ok [Out.noInferiorToStep]
          { inferior := none, breakpoints := bps }) ∧
    backtraceArm { inferior := none, breakpoints := bps } bt
      = StepResult.ok [] { inferior := none, breakpoints := bps } := by
  exact ⟨rfl, rfl, rfl⟩

/-- C10: the breakpoint-installation loop of `Inferior::new` discards the
result of every `install_break_points` call: with a SIGTRAP-stopped child,
spawning always succeeds regardless of install failures; on a memory where
every ptrace access fails, the requested breakpoint's trap byte is silently
absent from the returned inferior. -/
theorem inferior_new_discards_install_failures :
    (∀ pid q bps m,
      inferiorNew (some pid) (Except.ok (WaitStatus.stopped q Signal.SIGTRAP)) bps m
        = some { pid := pid, mem := installAllDiscardingErrors m bps }) ∧
    install_break_points badMem 0x401000 = Except.error NixError.EFAULT ∧
    inferiorNew (some 1) (Except.ok (WaitStatus.stopped 1 Signal.SIGTRAP))
        [0x401000] badMem
      = some { pid := 1, mem := badMem } ∧
    byteAt badMem 0x401000 ≠ 0xcc := by
  refine ⟨fun pid q bps m => rfl, ?_, rfl, ?_⟩
  · exact write_byte_err badMem 0x401000 0xcc rfl
  · decide

/-- C4: whenever the backtrace walk completes normally it has printed at
least one frame and the last printed frame is the `main` frame (the walk
stops only after printing `main`); on the concrete three-level chain
`main -> f -> g` it prints exactly the three frames innermost-first ending
at `main`, and when the middle frame resolves to no line/function it is
skipped without terminating the walk, which still ends at `main`. -/
theorem backtrace_walk :
    (∀ dd m fuel ip bp frames,
      backtraceLoop dd m fuel ip bp = some (Except.ok frames) →
      frames ≠ [] ∧
        ∃ file ln, frames.getLast? = some (Out.framePrinted "main" file ln)) ∧
    print_backtrace chainDwarf chainMem 500 1000 10
      = some (Except.ok
          [Out.framePrinted "g" "m.rs" 30, Out.framePrinted "f" "m.rs" 20,
           Out.framePrinted "main" "m.rs" 10]) ∧
    print_backtrace skipDwarf chainMem 500 1000 10
      = some (Except.ok
          [Out.framePrinted "g" "m.rs" 30, Out.framePrinted "main" "m.rs" 10]) := by
  refine ⟨?_, by rfl, by rfl⟩
  intro dd m fuel
  induction fuel with
  | zero =>
    intro ip bp frames h
    exact absurd h (by simp [backtraceLoop])
  | succ n ih =>
    intro ip bp frames h
    rw [backtraceLoop] at h
    split at h
    · rename_i hpf
      obtain ⟨file, ln, hfr⟩ := print_current_frame_main dd ip hpf
      have hframes : frames = (print_current_frame dd ip).1 := by
        injection h with h1
        injection h1 with h2
        exact h2.symm
      subst hframes
      rw [hfr]
      exact ⟨by simp, file, ln, by simp⟩
    · split at h
      · simp at h
      · split at h
        · simp at h
        · split at h
          · rename_i frames2 heq
            have hframes : frames = (print_current_frame dd ip).1 ++ frames2 := by
              injection h with h1
              injection h1 with h2
              exact h2.symm
            obtain ⟨hne, file, ln, hlast⟩ := ih _ _ frames2 heq
            subst hframes
            refine ⟨by simp [hne], file, ln, ?_⟩
            rw [List.getLast?_append, hlast]
            rfl
          · rename_i hnotok
            exact absurd h (hnotok frames)

/-- Witness for C4: the general walk property applied to the concrete
three-level chain. -/
theorem backtrace_walk_witness :
    ([Out.framePrinted "g" "m.rs" 30, Out.framePrinted "f" "m.rs" 20,
      Out.framePrinted "main" "m.rs" 10] : List Out) ≠ [] ∧
    ∃ file ln,
      ([Out.framePrinted "g" "m.rs" 30, Out.framePrinted "f" "m.rs" 20,
        Out.framePrinted "main" "m.rs" 10] : List Out).getLast?
        = some (Out.framePrinted "main" file ln) :=
  backtrace_walk.1 chainDwarf chainMem 10 500 1000
    [Out.framePrinted "g" "m.rs" 30, Out.framePrinted "f" "m.rs" 20,
     Out.framePrinted "main" "m.rs" 10] (by rfl)

/-- C5: the Next loop stops at exactly the first step outcome satisfying the
stop condition — a kernel error, an exit, a kill-by-signal, a stop on a
signal other than the step trap, or a stop whose resolved source line
differs from the line at entry (`next_line` equals `List.find?` of
`nextStops`); the Next arm then reports the resolved frame when the final
status is a stop and the terminal status otherwise. -/
theorem next_line_stop_characterization :
    (∀ dd el steps, next_line dd el steps = List.find? (nextStops dd el) steps) ∧
    (∀ inf bps dd el steps sig ip,
      next_line dd el steps = some (Except.ok (Status.Stopped sig ip)) →
      nextArm { inferior := some inf, breakpoints := bps } dd el steps
        = some (StepResult.ok (print_current_frame dd ip).1
            { inferior := some inf, breakpoints := bps })) ∧
    (∀ inf bps dd el steps code,
      next_line dd el steps = some (Except.ok (Status.Exited code)) →
      nextArm { inferior := some inf, breakpoints := bps } dd el steps
        = some (StepResult.ok [Out.terminalStatus (Status.Exited code)]
            { inferior := some inf, breakpoints := bps })) ∧
    (∀ inf bps dd el steps sg,
      next_line dd el steps = some (Except.ok (Status.Signaled sg)) →
      nextArm { inferior := some inf, breakpoints := bps } dd el steps
        = some (StepResult.ok [Out.terminalStatus (Status.Signaled sg)]
            { inferior := some inf, breakpoints := bps })) := by
  refine ⟨?_, ?_, ?_, ?_⟩
  · intro dd el steps
    induction steps with
    | nil => rfl
    | cons r rest ih =>
      cases r with
      | error e => simp [next_line, List.find?, nextStops]
      | ok st =>
        cases st with
        | Exited code => simp [next_line, List.find?, nextStops]
        | Signaled sg => simp [next_line, List.find?, nextStops]
        | Stopped sig ip =>
          by_cases h1 : sig = Signal.SIGTRAP
          · by_cases h2 : dd.get_line_from_addr ip = el
            · simp [next_line, List.find?, nextStops, h1, h2, ih]
            · simp [next_line, List.find?, nextStops, h1, h2]
          · simp [next_line, List.find?, nextStops, h1]
  · intro inf bps dd el steps sig ip h
    simp [nextArm, h]
  · intro inf bps dd el steps code h
    simp [nextArm, h]
  · intro inf bps dd el steps sg h
    simp [nextArm, h]

/-- Witness for C5: the Next loop steps twice over outcomes on the entry
line and stops at the first outcome on a different line; the arm reports the
resolved frame of the stop. -/
theorem next_line_stop_characterization_witness :
    next_line nextDwarf (some { file := "n.rs", number := 5 }) nextSteps
        = List.find? (nextStops nextDwarf (some { file := "n.rs", number := 5 }))
            nextSteps ∧
    nextArm { inferior := some demoInferior, breakpoints := [] } nextDwarf
        (some { file := "n.rs", number := 5 }) nextSteps
      = some (StepResult.ok (print_current_frame nextDwarf 200).1
          { inferior := some demoInferior, breakpoints := [] }) :=
  ⟨next_line_stop_characterization.1 nextDwarf
      (some { file := "n.rs", number := 5 }) nextSteps,
   next_line_stop_characterization.2.1 demoInferior [] nextDwarf
      (some { file := "n.rs", number := 5 }) nextSteps Signal.SIGTRAP 200 (by rfl)⟩

end Deet
